import Mathlib

/-!
Verification development for the repository the-great-combinator.

The repository provides a command-line combination engine (a Rust CLI,
named the-great-combinator) that turns a selection of files and folders
into one combined text artifact, plus two editor adapters that invoke it:
a VS Code extension (vscode-ext/src/extension.ts) and a Visual Studio
command (vs-ext, TgcTempCommand).

This file shallowly embeds:
  1. the caller-side logic of the VS Code extension (binary discovery,
     argument construction, selection handling, close-event handling)
     and of the Visual Studio TgcTempCommand, translated from the
     TypeScript and C# sources; and
  2. the combination engine itself; the engine source (core/src/main.rs)
     is not part of the available sources, so it is modelled from the
     specification, with each such definition marked in its doc comment.
-/

namespace Tgc

/-! ## Basic string helpers (executable, structurally recursive) -/

/-- Boolean test that the first character list is a prefix of the second. -/
def charsStart : List Char → List Char → Bool
  | [], _ => true
  | _ :: _, [] => false
  | a :: as, b :: bs => a == b && charsStart as bs

/-- Boolean test that the first character list occurs contiguously inside
the second. -/
def charsSub (needle : List Char) : List Char → Bool
  | [] => charsStart needle []
  | c :: rest => charsStart needle (c :: rest) || charsSub needle rest

/-- Boolean test that the string pre is a prefix of s. -/
def strStarts (pre s : String) : Bool := charsStart pre.data s.data

/-- Boolean test that sub occurs contiguously inside s. -/
def strContains (s sub : String) : Bool := charsSub sub.data s.data

/-! ## VS Code extension: argument construction (extension.ts, run)

The run function builds the argument vector for the engine process as

    const args = [
      '--mode', mode,
      '--header-format', cfg.get('headerFormat') as string,
      '--separator', cfg.get('separator') as string,
      '--max-kb', String(cfg.get('maxFileSizeKB') as number),
      // '--skip-binary', String(cfg.get('skipBinary') as boolean),
    ];

Note the skip-binary line is commented out in the source, so the flag is
not passed by this caller. -/

/-- Argument vector the VS Code extension passes to the engine
(extension.ts lines 185-191), given the mode and the user settings. -/
def vscodeArgs (mode headerFormat separator : String) (maxKb : Nat) : List String :=
  ["--mode", mode,
   "--header-format", headerFormat,
   "--separator", separator,
   "--max-kb", toString maxKb]

/-! ## Visual Studio TgcTempCommand (src/unnamed/part_002)

ExecuteAsync collects the active selection: a PhysicalFile contributes its
full path, a PhysicalFolder contributes Directory.EnumerateFiles with
SearchOption.AllDirectories (all files beneath it, full depth). If no
paths were collected it shows a message box and returns. Otherwise it
serialises the payload with workspace_root = "" and starts the CLI with a
fixed argument string. -/

/-- Snapshot of the filesystem visible to the tools: an association list
from absolute file path to file bytes (each byte a Nat). Directory
membership is implied by path prefixes. -/
structure FileSystem where
  files : List (String × List Nat)
deriving DecidableEq

/-- All file paths of the snapshot lying beneath directory d, in snapshot
order; embeds Directory.EnumerateFiles(d, "*", AllDirectories). -/
def filesUnder (fsys : FileSystem) (d : String) : List String :=
  (fsys.files.map Prod.fst).filter (fun q => strStarts (d ++ "/") q)

/-- A Visual Studio solution explorer selection item, as distinguished by
SolutionItemType in ExecuteAsync. -/
inductive SolutionItem
  | physicalFile (fullPath : String)
  | physicalFolder (fullPath : String)
  | otherItem
deriving DecidableEq

/-- The path list ExecuteAsync builds from the selection: files directly,
folders pre-expanded to all files beneath them, other items ignored. -/
def collectPaths (fsys : FileSystem) : List SolutionItem → List String
  | [] => []
  | SolutionItem.physicalFile p :: rest => p :: collectPaths fsys rest
  | SolutionItem.physicalFolder p :: rest => filesUnder fsys p ++ collectPaths fsys rest
  | SolutionItem.otherItem :: rest => collectPaths fsys rest

/-- The fixed Arguments string of the ProcessStartInfo in ExecuteAsync,
character for character as in the C# source. -/
def tgcTempArguments : String :=
  "--mode temp --header-format \"file ${index}: ${relpath}\" --separator \"\\n\\n\" --max-kb 1024 --skip-binary true"

/-- The engine invocation the TgcTempCommand prepares: the fixed argument
line plus the JSON payload fields. -/
structure CliInvocation where
  argumentsLine : String
  requestPaths : List String
  workspaceRoot : Option String
deriving DecidableEq

/-- ExecuteAsync up to the point of starting the process: returns none
when the collected path list is empty (message box shown, no process),
otherwise the invocation it launches, with workspace_root set to the
empty string. -/
def tgcTempExecute (fsys : FileSystem) (sel : List SolutionItem) : Option CliInvocation :=
  let paths := collectPaths fsys sel
  if paths = [] then none
  else some { argumentsLine := tgcTempArguments
              requestPaths := paths
              workspaceRoot := some "" }

/-! ## VS Code extension: binary discovery (extension.ts, pickBinary)

pickBinary builds a candidate list from six sources, drops falsy entries
(empty strings and nulls), then loops: a candidate equal to its own
basename (a bare name without a directory separator) is returned at once
without touching the filesystem; otherwise the candidate is returned when
pathExists holds; otherwise the loop continues. After the loop the bare
executable name is returned.

The embedding abstracts path arithmetic: repoRoot stands for
path.resolve(extensionPath, "..") and packagedDir for
context.asAbsolutePath of bin/platform-arch; the host is modelled as
non-Windows (exe name without .exe, forward-slash separator); cfgExpanded
is the user setting tgc.coreBinPath after trim and the expand helper. -/

/-- The engine executable name on a non-Windows host. -/
def exeName : String := "the-great-combinator"

/-- Environment of one pickBinary call: configuration, environment
variable, the derived directories, and the filesystem existence oracle
standing for fs.existsSync. -/
structure PickEnv where
  cfgExpanded : String
  envPath : Option String
  repoRoot : String
  workspaceFolder : Option String
  packagedDir : String
  fsExists : String → Bool

/-- JS truthiness on strings: empty string becomes null. -/
def optOfString (s : String) : Option String :=
  if s = "" then none else some s

/-- tryDebugBinFromRepo: the debug build under repoRoot, when it exists. -/
def tryDebugBinFromRepo (e : PickEnv) : Option String :=
  let p := e.repoRoot ++ "/target/debug/" ++ exeName
  if e.fsExists p then some p else none

/-- tryDebugBinFromWorkspace: the debug build under the first workspace
folder, when there is one and the file exists. -/
def tryDebugBinFromWorkspace (e : PickEnv) : Option String :=
  match e.workspaceFolder with
  | none => none
  | some wf =>
    let p := wf ++ "/target/debug/" ++ exeName
    if e.fsExists p then some p else none

/-- tryPackagedBin: the bundled production binary inside the extension,
when it exists. -/
def tryPackagedBin (e : PickEnv) : Option String :=
  let p := e.packagedDir ++ "/" ++ exeName
  if e.fsExists p then some p else none

/-- The candidate list of pickBinary after the filter(Boolean) step, in
source order: configuration path, env variable, repo debug build,
workspace debug build, packaged binary, bare name for the system path. -/
def candidatesOf (e : PickEnv) : List String :=
  [ optOfString e.cfgExpanded,
    optOfString (e.envPath.getD ""),
    tryDebugBinFromRepo e,
    tryDebugBinFromWorkspace e,
    tryPackagedBin e,
    some exeName ].filterMap id

/-- path.basename(c) === c for a posix path: no slash occurs in c. -/
def isBareName (s : String) : Bool := !(s.data.contains '/')

/-- The selection loop of pickBinary: a bare name is returned without an
existence check, a path is returned when it exists, otherwise continue;
exhaustion falls back to the bare executable name. -/
def pickLoop (e : PickEnv) : List String → String
  | [] => exeName
  | c :: rest =>
    if isBareName c then c
    else if c != "" && e.fsExists c then c
    else pickLoop e rest

/-- pickBinary, extension.ts lines 111-163. -/
def pickBinary (e : PickEnv) : String := pickLoop e (candidatesOf e)

/-- The discovery procedure as the specification describes it: first
candidate that exists on the filesystem wins, with a fallback to the bare
executable name when none exists. Stated from the words of the spec for
comparison with pickBinary. -/
def pickBinarySpec (e : PickEnv) : String :=
  ((candidatesOf e).find? (fun c => e.fsExists c)).getD exeName

/-! ## VS Code extension: run (extension.ts, lines 165-278) -/

/-- The selection normalisation at the top of run:
Array.isArray(uris) && uris.length ? uris : (uri ? [uri] : []).
A none for uris stands for a value that is not an array. -/
def picksOf (uri : Option String) (uris : Option (List String)) : List String :=
  match uris with
  | some l => if l ≠ [] then l else (match uri with | some u => [u] | none => [])
  | none => match uri with | some u => [u] | none => []

/-- What run does before any process is spawned: warn and stop on an empty
selection, otherwise spawn the engine with the argument vector and the
payload paths and workspace root. -/
inductive RunStep
  | warned
  | spawnedProc (args : List String) (payloadPaths : List String)
      (payloadRoot : Option String)
deriving DecidableEq

/-- The pre-spawn logic of run: picks are computed, an empty selection
shows a warning and returns, otherwise the engine process is spawned with
vscodeArgs and the payload built from the picks. -/
def runEntry (mode headerFormat separator : String) (maxKb : Nat)
    (wsRoot uri : Option String) (uris : Option (List String)) : RunStep :=
  let picks := picksOf uri uris
  if picks = [] then RunStep.warned
  else RunStep.spawnedProc (vscodeArgs mode headerFormat separator maxKb) picks wsRoot

/-- Observable outcome of the close handler of run. -/
inductive CloseOutcome
  | errorShown (msg : String)
  | clipboardWrite (text : String)
  | tempHandled (path : String)
deriving DecidableEq

/-- The close handler of run (extension.ts lines 221-272), restricted to
its primary effect: non-zero exit shows an error message and stops; exit
zero trims stdout and, in clipboard mode, writes exactly that text to the
OS clipboard; in temp mode the trimmed stdout is treated as the temp file
path. -/
def onCliClose (mode : String) (code : Int) (stdOut stdErr : String) : CloseOutcome :=
  if code ≠ 0 then
    CloseOutcome.errorShown
      ("CLI failed (code: " ++ toString code ++ ")\nStdout: " ++ stdOut ++ "\nStderr: " ++ stdErr)
  else
    let result := stdOut.trim
    if mode = "clipboard" then CloseOutcome.clipboardWrite result
    else CloseOutcome.tempHandled result

/-! ## The combination engine

The engine source, core/src/main.rs of the repository, is not among the
available sources; only its callers, tests and documentation are. The
definitions below are therefore modelled from the specification
(sections 3, 4.2-4.5, 6 of spec.md) and each doc comment says so. -/

/-- Modelled from the spec: the engine source core/src/main.rs is missing.
Classification of a resolved file (data model, section 3). -/
inductive FileStatus
  | Included
  | SkippedBinary
  | SkippedTooLarge
  | SkippedUnreadable
deriving DecidableEq

/-- Modelled from the spec: the engine source core/src/main.rs is missing.
ResolvedFile record of the data model (section 3): absolute path,
display-relative path, status, byte size, and the decoded content when
Included. -/
structure ResolvedFile where
  absolute_path : String
  relative_path : String
  status : FileStatus
  size_bytes : Nat
  content : Option String
deriving DecidableEq

/-- Modelled from the spec: the engine source core/src/main.rs is missing.
Engine configuration supplied by the argument parser (section 6), without
the output mode, which only selects the sink. -/
structure Settings where
  headerFormat : String
  separator : String
  maxKb : Nat
  skipBinary : Bool
deriving DecidableEq

/-- Modelled from the spec: the engine source core/src/main.rs is missing.
The decoded request (section 3): ordered path list and optional workspace
root. -/
structure Request where
  paths : List String
  workspace_root : Option String
deriving DecidableEq

/-- Modelled from the spec: the engine source core/src/main.rs is missing.
The two output sinks (section 4.5). -/
inductive Mode
  | clipboard
  | temp
deriving DecidableEq

/-! ### Path Resolver (spec section 4.2) -/

/-- Modelled from the spec: the engine source core/src/main.rs is missing.
Bytes of the file at path p in the snapshot, when p names a regular
file. -/
def lookupBytes (fsys : FileSystem) (p : String) : Option (List Nat) :=
  fsys.files.lookup p

/-- Modelled from the spec: the engine source core/src/main.rs is missing.
Resolution of one request entry: a regular file is included directly, a
directory contributes every regular file beneath it at full depth in
snapshot order, and a non-existent or unreadable entry contributes no
files (it is recorded as SkippedUnreadable, non-fatal). -/
def resolveEntry (fsys : FileSystem) (p : String) : List String :=
  if (lookupBytes fsys p).isSome then [p] else filesUnder fsys p

/-- Modelled from the spec: the engine source core/src/main.rs is missing.
The concatenated, not yet deduplicated traversal of all request entries in
input order. -/
def rawResolve (fsys : FileSystem) (paths : List String) : List String :=
  paths.flatMap (resolveEntry fsys)

/-- Keep-first deduplication worker: an element already seen is dropped,
a new element is kept and remembered. -/
def dedupFirstAux (seen : List String) : List String → List String
  | [] => []
  | x :: xs =>
    if x ∈ seen then dedupFirstAux seen xs
    else x :: dedupFirstAux (x :: seen) xs

/-- Modelled from the spec: the engine source core/src/main.rs is missing.
Keep-first deduplication (section 4.2): a file reachable twice stays at
its first-encountered position. -/
def dedupFirst (l : List String) : List String := dedupFirstAux [] l

/-- Modelled from the spec: the engine source core/src/main.rs is missing.
The resolved ordered file sequence of a request: input-order traversal
followed by keep-first deduplication. -/
def resolveAll (fsys : FileSystem) (paths : List String) : List String :=
  dedupFirst (rawResolve fsys paths)

/-- Modelled from the spec: the engine source core/src/main.rs is missing.
Display-relative path (section 4.2): relative to the workspace root when
the file lies beneath it, otherwise the absolute path. The
common-ancestor display used when no root is supplied is not needed by
any claim and is simplified to the absolute path. -/
def relPathOf (root : Option String) (p : String) : String :=
  match root with
  | some r =>
    if r != "" && strStarts (r ++ "/") p then String.mk (p.data.drop (r.length + 1))
    else p
  | none => p

/-! ### File Loader (spec section 4.3) -/

/-- Modelled from the spec: the engine source core/src/main.rs is missing.
Bound of the byte prefix inspected by binary detection. -/
def binaryProbeLimit : Nat := 8192

/-- Modelled from the spec: the engine source core/src/main.rs is missing.
Binary detection (section 4.3): a NUL byte inside a bounded prefix marks
the content as binary. -/
def isBinaryContent (bs : List Nat) : Bool :=
  (bs.take binaryProbeLimit).contains 0

/-- Modelled from the spec: the engine source core/src/main.rs is missing.
Best-effort text decoding of file bytes; invalid bytes are replaced,
never a crash. -/
def decodeBytes (bs : List Nat) : String :=
  String.mk (bs.map Char.ofNat)

/-- Modelled from the spec: the engine source core/src/main.rs is missing.
Classification of readable content (section 4.3): a strict byte-count
ceiling of maxKb times 1024 first, then binary detection only when the
skip-binary policy is enabled, otherwise Included. -/
def classifyFile (s : Settings) (bs : List Nat) : FileStatus :=
  if bs.length > s.maxKb * 1024 then FileStatus.SkippedTooLarge
  else if s.skipBinary && isBinaryContent bs then FileStatus.SkippedBinary
  else FileStatus.Included

/-- Modelled from the spec: the engine source core/src/main.rs is missing.
Loading one resolved path into a ResolvedFile record: unreadable paths
become SkippedUnreadable, readable ones are classified and carry their
decoded content exactly when Included. -/
def loadFile (s : Settings) (root : Option String) (fsys : FileSystem)
    (p : String) : ResolvedFile :=
  match lookupBytes fsys p with
  | none =>
    { absolute_path := p
      relative_path := relPathOf root p
      status := FileStatus.SkippedUnreadable
      size_bytes := 0
      content := none }
  | some bs =>
    let st := classifyFile s bs
    { absolute_path := p
      relative_path := relPathOf root p
      status := st
      size_bytes := bs.length
      content := if st = FileStatus.Included then some (decodeBytes bs) else none }

/-- Modelled from the spec: the engine source core/src/main.rs is missing.
The full resolved-and-classified sequence of a request. -/
def resolveFiles (s : Settings) (fsys : FileSystem) (req : Request) :
    List ResolvedFile :=
  (resolveAll fsys req.paths).map (loadFile s req.workspace_root fsys)

/-! ### Formatter (spec section 4.4) -/

/-- Modelled from the spec: the engine source core/src/main.rs is missing.
Decoding of escape sequences in configuration strings (section 4.4): the
two-character sequences for newline, tab, carriage return and backslash
become their literal characters, everything else is kept. -/
def decodeEscapeChars : List Char → List Char
  | [] => []
  | '\\' :: 'n' :: rest => '\n' :: decodeEscapeChars rest
  | '\\' :: 't' :: rest => '\t' :: decodeEscapeChars rest
  | '\\' :: 'r' :: rest => '\r' :: decodeEscapeChars rest
  | '\\' :: '\\' :: rest => '\\' :: decodeEscapeChars rest
  | c :: rest => c :: decodeEscapeChars rest

/-- Modelled from the spec: the engine source core/src/main.rs is missing.
String form of the escape decoder. -/
def decodeEscapes (s : String) : String := String.mk (decodeEscapeChars s.data)

/-- Modelled from the spec: the engine source core/src/main.rs is missing.
Closed-vocabulary token replacement (sections 4.4 and 9): the index
placeholder becomes the decimal index, the relpath placeholder becomes the
relative path, any other character is copied verbatim. -/
def substTokens (idx : Nat) (rel : List Char) : List Char → List Char
  | '$' :: '{' :: 'i' :: 'n' :: 'd' :: 'e' :: 'x' :: '}' :: rest =>
    (Nat.toDigits 10 idx) ++ substTokens idx rel rest
  | '$' :: '{' :: 'r' :: 'e' :: 'l' :: 'p' :: 'a' :: 't' :: 'h' :: '}' :: rest =>
    rel ++ substTokens idx rel rest
  | c :: rest => c :: substTokens idx rel rest
  | [] => []

/-- Modelled from the spec: the engine source core/src/main.rs is missing.
Rendering of the header template for one included file. -/
def renderHeader (tmpl : String) (idx : Nat) (rel : String) : String :=
  String.mk (substTokens idx rel.data tmpl.data)

/-- Modelled from the spec: the engine source core/src/main.rs is missing.
The Included sub-sequence of a resolved sequence, in order. -/
def includedOf (l : List ResolvedFile) : List ResolvedFile :=
  l.filter (fun f => f.status = FileStatus.Included)

/-- Modelled from the spec: the engine source core/src/main.rs is missing.
One rendered block: the header, a newline, then the decoded content
(scenario A of section 8). -/
def blockText (s : Settings) (idx : Nat) (f : ResolvedFile) : String :=
  renderHeader s.headerFormat idx f.relative_path ++ "\n" ++ f.content.getD ""

/-- Modelled from the spec: the engine source core/src/main.rs is missing.
All rendered blocks of a resolved sequence, with 1-based indices counting
only Included files. -/
def blocksOf (s : Settings) (l : List ResolvedFile) : List String :=
  (includedOf l).enum.map (fun p => blockText s (p.1 + 1) p.2)

/-- Modelled from the spec: the engine source core/src/main.rs is missing.
The sequence of index values the formatter assigns, in output order. -/
def indexList (l : List ResolvedFile) : List Nat :=
  (includedOf l).enum.map (fun p => p.1 + 1)

/-- Modelled from the spec: the engine source core/src/main.rs is missing.
Joining of the rendered blocks with the literal separator between
consecutive blocks, none before the first or after the last
(section 4.4). -/
def joinBlocks (sep : String) : List String → String
  | [] => ""
  | [b] => b
  | b :: c :: rest => b ++ sep ++ joinBlocks sep (c :: rest)

/-- Modelled from the spec: the engine source core/src/main.rs is missing.
The combined text of a resolved sequence: blocks joined with the decoded
separator. -/
def combinedText (s : Settings) (l : List ResolvedFile) : String :=
  joinBlocks (decodeEscapes s.separator) (blocksOf s l)

/-! ### Output Sink (spec section 4.5) and whole-engine run -/

/-- Modelled from the spec: the engine source core/src/main.rs is missing.
Fatal error taxonomy of section 7. -/
inductive EngineFailure
  | InputError
  | ValidationError
  | OutputError
deriving DecidableEq

/-- Modelled from the spec: the engine source core/src/main.rs is missing.
Result of a successful run: the text on the primary output channel, and
in temp mode the created file as a pair of path and written content. -/
structure RunResult where
  emitted : String
  tempFile : Option (String × String)
deriving DecidableEq

/-- Modelled from the spec: the engine source core/src/main.rs is missing.
One engine invocation (sections 4.5, 6, 7): an empty path list is an
InputError, a request resolving to no files at all is a ValidationError,
otherwise the resolved sequence is formatted and joined; clipboard mode
emits the trimmed combined text on the primary output channel, temp mode
writes that same text into the temporary file and emits only the file
path. The temporary file name is supplied from outside as tmpPath. -/
def runEngine (mode : Mode) (s : Settings) (fsys : FileSystem) (req : Request)
    (tmpPath : String) : Except EngineFailure RunResult :=
  if req.paths = [] then Except.error EngineFailure.InputError
  else
    let rfiles := resolveFiles s fsys req
    if rfiles = [] then Except.error EngineFailure.ValidationError
    else
      let text := (combinedText s rfiles).trim
      match mode with
      | Mode.clipboard => Except.ok { emitted := text, tempFile := none }
      | Mode.temp => Except.ok { emitted := tmpPath, tempFile := some (tmpPath, text) }

/-! ### Concrete instances used by witness theorems -/

/-- Settings instance for concrete runs. -/
def wSettings : Settings :=
  { headerFormat := "f ${index}:${relpath}", separator := "|", maxKb := 1, skipBinary := true }

/-- Two-file snapshot for concrete runs. -/
def wFileSystem : FileSystem := { files := [("a", [104]), ("b", [105])] }

/-- Two-file request for concrete runs. -/
def wRequest : Request := { paths := ["a", "b"], workspace_root := none }

/-- Resolved sequence of the concrete run. -/
def wResolved : List ResolvedFile := resolveFiles wSettings wFileSystem wRequest

/-- Snapshot with a directory holding two files, for the deduplication
witness. -/
def w8FileSystem : FileSystem := { files := [("d/a", [104]), ("d/b", [105])] }

/-- Loader settings with a zero ceiling for the boundary witness. -/
def w5Settings : Settings :=
  { headerFormat := "", separator := "", maxKb := 0, skipBinary := false }

/-- A resolved file already classified as too large, for the exclusion
part of the boundary witness. -/
def w5File : ResolvedFile :=
  { absolute_path := "big", relative_path := "big",
    status := FileStatus.SkippedTooLarge, size_bytes := 1, content := none }

/-- Snapshot for the Visual Studio command witness. -/
def w10FileSystem : FileSystem := { files := [("d/x", [1]), ("d/y", [2])] }

/-- Selection of one file and one folder for the Visual Studio command
witness. -/
def w10Selection : List SolutionItem :=
  [SolutionItem.physicalFile "a", SolutionItem.physicalFolder "d"]

/-- The invocation the Visual Studio command builds from w10Selection. -/
def w10Invocation : CliInvocation :=
  { argumentsLine := tgcTempArguments
    requestPaths := ["a", "d/x", "d/y"]
    workspaceRoot := some "" }

/-- A discovery environment whose configured binary path is a bare name
and whose filesystem holds no candidate at all. -/
def bareCfgEnv : PickEnv :=
  { cfgExpanded := "foo", envPath := none, repoRoot := "r",
    workspaceFolder := none, packagedDir := "pk", fsExists := fun _ => false }

/-! ## Helper lemmas -/

/-- A filter whose predicate holds on every element returns the list
unchanged. -/
theorem filter_of_all {α : Type} (p : α → Bool) :
    ∀ l : List α, (∀ a ∈ l, p a = true) → l.filter p = l
  | [], _ => rfl
  | x :: xs, h => by
    have hx : p x = true := h x (List.mem_cons_self x xs)
    simp only [List.filter_cons, hx, if_pos]
    rw [filter_of_all p xs (fun a ha => h a (List.mem_cons_of_mem x ha))]

/-- The selection loop of pickBinary returns the first candidate that is
a bare name or a non-empty existing path, with the bare executable name
as fallback. -/
theorem pickLoop_eq_find (e : PickEnv) :
    ∀ l : List String,
      pickLoop e l
        = ((l.find? (fun c => isBareName c || (c != "" && e.fsExists c))).getD exeName)
  | [] => rfl
  | c :: rest => by
    by_cases h1 : isBareName c = true
    · simp [pickLoop, List.find?_cons, h1]
    · by_cases h2 : (c != "" && e.fsExists c) = true
      · simp [pickLoop, List.find?_cons, h1, h2]
      · simp [pickLoop, List.find?_cons, h1, h2, pickLoop_eq_find e rest]

/-! ## Claims -/

/-- C1: the claim states that every caller passes the skip-binary flag on
the engine command line. The VS Code extension does not: its argument
vector (built at extension.ts lines 185-191, with the skip-binary line
commented out) never contains the flag. Concrete counterexample with the
default settings. -/
theorem vscode_run_omits_skip_binary :
    "--skip-binary" ∉ vscodeArgs "clipboard" "File ${index}: ${relpath}" "\\n\\n" 1024 := by
  decide

/-- C1 (amended): the Visual Studio TgcTempCommand passes the skip-binary
flag (fixed to true) together with mode, header-format, separator and
max-kb, while the VS Code extension passes exactly mode, header-format,
separator and max-kb and omits skip-binary. -/
theorem skip_binary_wiring_per_caller (mode headerFormat separator : String) (maxKb : Nat) :
    vscodeArgs mode headerFormat separator maxKb
      = ["--mode", mode, "--header-format", headerFormat,
         "--separator", separator, "--max-kb", toString maxKb]
    ∧ strContains tgcTempArguments "--skip-binary true" = true
    ∧ strContains tgcTempArguments "--mode temp" = true
    ∧ strContains tgcTempArguments "--header-format" = true
    ∧ strContains tgcTempArguments "--separator" = true
    ∧ strContains tgcTempArguments "--max-kb 1024" = true :=
  ⟨rfl, by decide, by decide, by decide, by decide, by decide⟩

/-- C2: the claim states that pickBinary returns the first candidate that
exists on the filesystem, falling back to the bare executable name when
none exists. Counterexample: with the user setting equal to the bare name
foo and a filesystem on which no candidate exists, pickBinary returns foo
without any existence check, while the behaviour the claim describes
(pickBinarySpec) returns the bare executable name. -/
theorem pickBinary_bare_config_short_circuit :
    pickBinary bareCfgEnv = "foo"
    ∧ pickBinarySpec bareCfgEnv = exeName
    ∧ bareCfgEnv.fsExists "foo" = false
    ∧ "foo" ≠ exeName :=
  ⟨rfl, rfl, rfl, by decide⟩

/-- C2 (amended): pickBinary tries the candidates in the stated order —
configuration path, environment variable, repo-adjacent debug build,
workspace debug build, bundled binary, bare name for the system path —
and returns the first candidate that either is a bare name (returned
without an existence check) or is a non-empty path that exists on the
filesystem, falling back to the bare executable name when no candidate
qualifies. -/
theorem pickBinary_first_bare_or_existing (e : PickEnv) :
    pickBinary e
      = (((candidatesOf e).find?
            (fun c => isBareName c || (c != "" && e.fsExists c))).getD exeName) :=
  pickLoop_eq_find e (candidatesOf e)

/-- C3: for an engine run spawned by the VS Code extension in clipboard
mode, exit status zero makes the close handler write exactly the trimmed
primary output to the OS clipboard, and a non-zero status makes it show
an error message, writing nothing to the clipboard. -/
theorem run_close_clipboard_contract (code : Int) (stdOut stdErr : String) :
    (code = 0 →
      onCliClose "clipboard" code stdOut stdErr = CloseOutcome.clipboardWrite stdOut.trim)
    ∧ (code ≠ 0 →
      onCliClose "clipboard" code stdOut stdErr
        = CloseOutcome.errorShown
            ("CLI failed (code: " ++ toString code ++ ")\nStdout: " ++ stdOut
              ++ "\nStderr: " ++ stdErr)) := by
  constructor
  · intro h
    subst h
    simp [onCliClose]
  · intro h
    simp [onCliClose, h]

/-- Witness for C3 at exit codes zero and one. -/
theorem run_close_clipboard_contract_witness :
    ((0 : Int) = 0
      ∧ onCliClose "clipboard" 0 " ok " "" = CloseOutcome.clipboardWrite (" ok ".trim))
    ∧ ((1 : Int) ≠ 0
      ∧ onCliClose "clipboard" 1 "o" "e"
          = CloseOutcome.errorShown
              ("CLI failed (code: " ++ toString (1 : Int) ++ ")\nStdout: " ++ "o"
                ++ "\nStderr: " ++ "e")) :=
  ⟨⟨rfl, (run_close_clipboard_contract 0 " ok " "").1 rfl⟩,
   ⟨by decide, (run_close_clipboard_contract 1 "o" "e").2 (by decide)⟩⟩

/-- C9: when the selection handed to the run function is empty (no uri and
no non-empty uris array) the function only shows a warning and never
spawns the engine, and whenever it does spawn the engine the payload path
list is non-empty. -/
theorem run_empty_selection_no_spawn (mode headerFormat separator : String) (maxKb : Nat)
    (wsRoot uri : Option String) (uris : Option (List String)) :
    (picksOf uri uris = [] →
      runEntry mode headerFormat separator maxKb wsRoot uri uris = RunStep.warned)
    ∧ (∀ args ps root,
        runEntry mode headerFormat separator maxKb wsRoot uri uris
          = RunStep.spawnedProc args ps root → ps ≠ []) := by
  constructor
  · intro h
    simp [runEntry, h]
  · intro args ps root h
    by_cases hp : picksOf uri uris = []
    · simp [runEntry, hp] at h
    · simp only [runEntry, if_neg hp, RunStep.spawnedProc.injEq] at h
      obtain ⟨-, h2, -⟩ := h
      rw [h2] at hp
      exact hp

/-- Witness for C9: an empty selection warns, a one-file selection spawns
with that one path. -/
theorem run_empty_selection_no_spawn_witness :
    (picksOf none none = []
      ∧ runEntry "clipboard" "h" "s" 1 none none none = RunStep.warned)
    ∧ (runEntry "clipboard" "h" "s" 1 none (some "f") none
        = RunStep.spawnedProc (vscodeArgs "clipboard" "h" "s" 1) ["f"] none
      ∧ ["f"] ≠ ([] : List String)) :=
  ⟨⟨rfl, (run_empty_selection_no_spawn "clipboard" "h" "s" 1 none none none).1 rfl⟩,
   ⟨rfl, (run_empty_selection_no_spawn "clipboard" "h" "s" 1 none (some "f") none).2
      (vscodeArgs "clipboard" "h" "s" 1) ["f"] none rfl⟩⟩

/-- The path list the Visual Studio command collects equals the per-item
expansion of the selection, concatenated in selection order. -/
theorem collectPaths_eq_flatMap (fsys : FileSystem) :
    ∀ sel : List SolutionItem,
      collectPaths fsys sel
        = sel.flatMap (fun item =>
            match item with
            | SolutionItem.physicalFile p => [p]
            | SolutionItem.physicalFolder p => filesUnder fsys p
            | SolutionItem.otherItem => [])
  | [] => rfl
  | SolutionItem.physicalFile p :: rest => by
    simp [collectPaths, collectPaths_eq_flatMap fsys rest]
  | SolutionItem.physicalFolder p :: rest => by
    simp [collectPaths, collectPaths_eq_flatMap fsys rest]
  | SolutionItem.otherItem :: rest => by
    simp [collectPaths, collectPaths_eq_flatMap fsys rest]

/-- C10: every invocation the Visual Studio TgcTempCommand launches uses
the fixed, non-configurable argument line (temp mode, header format
file index colon relpath, blank-line separator escape, max-kb 1024,
skip-binary true), pre-expands each selected folder into all files
beneath it at full depth, and always sets workspace_root to the empty
string. -/
theorem tgc_temp_command_invocation (fsys : FileSystem) (sel : List SolutionItem)
    (inv : CliInvocation) (h : tgcTempExecute fsys sel = some inv) :
    inv.argumentsLine = tgcTempArguments
    ∧ strContains inv.argumentsLine "--mode temp" = true
    ∧ strContains inv.argumentsLine "--header-format \"file ${index}: ${relpath}\"" = true
    ∧ strContains inv.argumentsLine "--separator \"\\n\\n\"" = true
    ∧ strContains inv.argumentsLine "--max-kb 1024" = true
    ∧ strContains inv.argumentsLine "--skip-binary true" = true
    ∧ inv.workspaceRoot = some ""
    ∧ inv.requestPaths
        = sel.flatMap (fun item =>
            match item with
            | SolutionItem.physicalFile p => [p]
            | SolutionItem.physicalFolder p => filesUnder fsys p
            | SolutionItem.otherItem => [])
    ∧ inv.requestPaths ≠ [] := by
  by_cases hp : collectPaths fsys sel = []
  · simp [tgcTempExecute, hp] at h
  · simp only [tgcTempExecute, if_neg hp, Option.some.injEq] at h
    subst h
    have h1 : strContains tgcTempArguments "--mode temp" = true := by decide
    have h2 : strContains tgcTempArguments
        "--header-format \"file ${index}: ${relpath}\"" = true := by decide
    have h3 : strContains tgcTempArguments "--separator \"\\n\\n\"" = true := by decide
    have h4 : strContains tgcTempArguments "--max-kb 1024" = true := by decide
    have h5 : strContains tgcTempArguments "--skip-binary true" = true := by decide
    exact ⟨rfl, h1, h2, h3, h4, h5, rfl, collectPaths_eq_flatMap fsys sel, hp⟩

/-- Witness for C10: one selected file plus one selected folder holding
two files. -/
theorem tgc_temp_command_invocation_witness :
    tgcTempExecute w10FileSystem w10Selection = some w10Invocation
    ∧ (w10Invocation.argumentsLine = tgcTempArguments
      ∧ strContains w10Invocation.argumentsLine "--mode temp" = true
      ∧ strContains w10Invocation.argumentsLine
          "--header-format \"file ${index}: ${relpath}\"" = true
      ∧ strContains w10Invocation.argumentsLine "--separator \"\\n\\n\"" = true
      ∧ strContains w10Invocation.argumentsLine "--max-kb 1024" = true
      ∧ strContains w10Invocation.argumentsLine "--skip-binary true" = true
      ∧ w10Invocation.workspaceRoot = some ""
      ∧ w10Invocation.requestPaths
          = w10Selection.flatMap (fun item =>
              match item with
              | SolutionItem.physicalFile p => [p]
              | SolutionItem.physicalFolder p => filesUnder w10FileSystem p
              | SolutionItem.otherItem => [])
      ∧ w10Invocation.requestPaths ≠ []) :=
  ⟨by decide,
   tgc_temp_command_invocation w10FileSystem w10Selection w10Invocation (by decide)⟩

/-- C5: the size policy of the File Loader is a strict byte-count
threshold: content of exactly maxKb times 1024 bytes is Included
(provided the independent binary-skip check does not fire), content one
byte larger is SkippedTooLarge, and a file so classified never appears in
the Included sub-sequence feeding the combined output. -/
theorem loader_size_threshold_boundary (s : Settings) (bs bs2 : List Nat)
    (l : List ResolvedFile) (f : ResolvedFile)
    (hAt : bs.length = s.maxKb * 1024)
    (hTxt : ¬(s.skipBinary = true ∧ isBinaryContent bs = true))
    (hOver : bs2.length = s.maxKb * 1024 + 1)
    (hf : f.status = FileStatus.SkippedTooLarge) :
    classifyFile s bs = FileStatus.Included
    ∧ classifyFile s bs2 = FileStatus.SkippedTooLarge
    ∧ f ∉ includedOf l := by
  refine ⟨?_, ?_, ?_⟩
  · unfold classifyFile
    rw [hAt]
    simp only [gt_iff_lt, lt_irrefl, if_false]
    cases hsb : s.skipBinary <;> cases hbc : isBinaryContent bs <;> simp_all
  · unfold classifyFile
    rw [hOver]
    simp
  · intro hmem
    rw [includedOf, List.mem_filter] at hmem
    have : f.status = FileStatus.Included := by
      have h2 := hmem.2
      simpa using h2
    rw [hf] at this
    exact FileStatus.noConfusion this

/-- Witness for C5: with a ceiling of zero kilobytes, empty content is
Included and one byte is SkippedTooLarge and excluded. -/
theorem loader_size_threshold_boundary_witness :
    (List.length ([] : List Nat) = w5Settings.maxKb * 1024
      ∧ ¬(w5Settings.skipBinary = true ∧ isBinaryContent [] = true)
      ∧ List.length [7] = w5Settings.maxKb * 1024 + 1
      ∧ w5File.status = FileStatus.SkippedTooLarge)
    ∧ (classifyFile w5Settings [] = FileStatus.Included
      ∧ classifyFile w5Settings [7] = FileStatus.SkippedTooLarge
      ∧ w5File ∉ includedOf [w5File]) :=
  ⟨⟨by decide, by decide, by decide, by decide⟩,
   loader_size_threshold_boundary w5Settings [] [7] [w5File] w5File
     (by decide) (by decide) (by decide) (by decide)⟩

/-- C6: for the same request and configuration, the text temp mode writes
into the temporary file is byte-for-byte the text clipboard mode emits on
the primary output channel; the two modes also fail identically. -/
theorem temp_mode_matches_clipboard_mode (s : Settings) (fsys : FileSystem)
    (req : Request) (tmpPath : String) :
    (runEngine Mode.temp s fsys req tmpPath).map (fun r => r.tempFile)
      = (runEngine Mode.clipboard s fsys req tmpPath).map
          (fun r => some (tmpPath, r.emitted)) := by
  unfold runEngine
  by_cases h1 : req.paths = []
  · simp [h1, Except.map]
  · by_cases h2 : resolveFiles s fsys req = []
    · simp [h1, h2, Except.map]
    · simp [h1, h2, Except.map]

/-- C7: the engine is deterministic: two runs of the same request and
configuration against equal filesystem snapshots produce equal results,
with an identical resolved-file ordering (hence identical header index
numbering). -/
theorem engine_run_deterministic (mode : Mode) (s : Settings)
    (fs1 fs2 : FileSystem) (req : Request) (tmpPath : String) (h : fs1 = fs2) :
    runEngine mode s fs1 req tmpPath = runEngine mode s fs2 req tmpPath
    ∧ resolveAll fs1 req.paths = resolveAll fs2 req.paths := by
  subst h
  exact ⟨rfl, rfl⟩

/-- Witness for C7 on a concrete two-file run. -/
theorem engine_run_deterministic_witness :
    wFileSystem = wFileSystem
    ∧ (runEngine Mode.clipboard wSettings wFileSystem wRequest "t"
          = runEngine Mode.clipboard wSettings wFileSystem wRequest "t"
      ∧ resolveAll wFileSystem wRequest.paths = resolveAll wFileSystem wRequest.paths) :=
  ⟨rfl, engine_run_deterministic Mode.clipboard wSettings wFileSystem wFileSystem
    wRequest "t" rfl⟩

/-- On a sequence whose files are all Included, the filter to the
Included sub-sequence is the identity. -/
theorem includedOf_eq_self (l : List ResolvedFile)
    (h : ∀ f ∈ l, f.status = FileStatus.Included) : includedOf l = l :=
  filter_of_all _ l (fun a ha => by simp [h a ha])

/-- The recursive block join written as the standard list intercalation:
the separator occurs exactly between consecutive blocks, never before the
first or after the last. -/
theorem joinBlocks_data (sep : String) :
    ∀ l : List String,
      (joinBlocks sep l).data = List.intercalate sep.data (l.map String.data)
  | [] => by simp [joinBlocks, List.intercalate]
  | [b] => by simp [joinBlocks, List.intercalate, List.intersperse_singleton]
  | b :: c :: rest => by
    have ih := joinBlocks_data sep (c :: rest)
    simp only [List.map_cons, List.intercalate, List.intersperse_cons_cons,
      List.flatten_cons] at ih ⊢
    simp only [joinBlocks, String.data_append, ih, List.append_assoc]

/-- On an all-Included sequence the assigned indices are exactly 1..N in
output order. -/
theorem indexList_all_included (l : List ResolvedFile)
    (h : ∀ f ∈ l, f.status = FileStatus.Included) :
    indexList l = List.range' 1 l.length := by
  rw [indexList, includedOf_eq_self l h]
  have h1 : (fun p : Nat × ResolvedFile => p.1 + 1) = ((fun i => i + 1) ∘ Prod.fst) := rfl
  rw [h1, ← List.map_map, List.enum_map_fst, List.range'_eq_map_range]
  have h2 : (fun x : Nat => 1 + x) = (fun i : Nat => i + 1) :=
    funext fun x => Nat.add_comm 1 x
  rw [h2]

/-- C4: for a request whose resolved files are all Included, the output
holds exactly one rendered block (header plus content) per resolved file,
the index values are exactly 1..N in output order counting only included
files, and the decoded separator stands exactly between consecutive
blocks, never before the first or after the last. -/
theorem formatter_all_included_blocks (s : Settings) (fsys : FileSystem) (req : Request)
    (rf : List ResolvedFile) (_hrf : rf = resolveFiles s fsys req)
    (hinc : ∀ f ∈ rf, f.status = FileStatus.Included) :
    (blocksOf s rf).length = rf.length
    ∧ blocksOf s rf = rf.enum.map (fun p => blockText s (p.1 + 1) p.2)
    ∧ indexList rf = List.range' 1 rf.length
    ∧ (combinedText s rf).data
        = List.intercalate (decodeEscapes s.separator).data
            ((blocksOf s rf).map String.data) := by
  have hib : includedOf rf = rf := includedOf_eq_self rf hinc
  refine ⟨?_, ?_, indexList_all_included rf hinc, ?_⟩
  · rw [blocksOf, hib, List.length_map, List.enum_length]
  · rw [blocksOf, hib]
  · rw [combinedText]
    exact joinBlocks_data (decodeEscapes s.separator) (blocksOf s rf)

/-- Witness for C4 on a concrete two-file request whose files are all
Included. -/
theorem formatter_all_included_blocks_witness :
    (wResolved = resolveFiles wSettings wFileSystem wRequest
      ∧ ∀ f ∈ wResolved, f.status = FileStatus.Included)
    ∧ ((blocksOf wSettings wResolved).length = wResolved.length
      ∧ blocksOf wSettings wResolved
          = wResolved.enum.map (fun p => blockText wSettings (p.1 + 1) p.2)
      ∧ indexList wResolved = List.range' 1 wResolved.length
      ∧ (combinedText wSettings wResolved).data
          = List.intercalate (decodeEscapes wSettings.separator).data
              ((blocksOf wSettings wResolved).map String.data)) :=
  ⟨⟨rfl, by decide⟩,
   formatter_all_included_blocks wSettings wFileSystem wRequest wResolved rfl (by decide)⟩

/-- Membership in the deduplication worker: exactly the input elements
not yet seen. -/
theorem mem_dedupFirstAux (a : String) :
    ∀ (l seen : List String), a ∈ dedupFirstAux seen l ↔ a ∈ l ∧ a ∉ seen
  | [], seen => by simp [dedupFirstAux]
  | x :: xs, seen => by
    by_cases hx : x ∈ seen
    · rw [dedupFirstAux, if_pos hx, mem_dedupFirstAux a xs seen, List.mem_cons]
      constructor
      · rintro ⟨h1, h2⟩
        exact ⟨Or.inr h1, h2⟩
      · rintro ⟨h1 | h1, h2⟩
        · exact absurd (h1 ▸ hx) h2
        · exact ⟨h1, h2⟩
    · rw [dedupFirstAux, if_neg hx, List.mem_cons, mem_dedupFirstAux a xs (x :: seen),
        List.mem_cons, List.mem_cons]
      by_cases hax : a = x
      · subst hax
        simp [hx]
      · simp [hax]

/-- The deduplication worker returns a list without duplicates. -/
theorem nodup_dedupFirstAux :
    ∀ (l seen : List String), (dedupFirstAux seen l).Nodup
  | [], _ => List.nodup_nil
  | x :: xs, seen => by
    by_cases hx : x ∈ seen
    · rw [dedupFirstAux, if_pos hx]
      exact nodup_dedupFirstAux xs seen
    · rw [dedupFirstAux, if_neg hx]
      refine List.nodup_cons.mpr ⟨?_, nodup_dedupFirstAux xs (x :: seen)⟩
      intro hmem
      exact ((mem_dedupFirstAux x xs (x :: seen)).mp hmem).2 (List.mem_cons_self x seen)

/-- Cutting the deduplicated list just before the first occurrence of f
gives the deduplication of the input cut just before the first occurrence
of f: each element keeps the position of its first encounter. -/
theorem takeWhile_dedupFirstAux (f : String) :
    ∀ (l seen : List String), f ∉ seen →
      (dedupFirstAux seen l).takeWhile (fun x => x != f)
        = dedupFirstAux seen (l.takeWhile (fun x => x != f))
  | [], _, _ => rfl
  | x :: xs, seen, hf => by
    by_cases hx : x ∈ seen
    · have hxf : (x != f) = true := by
        rcases eq_or_ne x f with h | h
        · exact absurd (h ▸ hx) hf
        · simpa using h
      simp only [dedupFirstAux, hx, if_true, List.takeWhile_cons, hxf]
      exact takeWhile_dedupFirstAux f xs seen hf
    · by_cases hxf : x = f
      · subst hxf
        simp [dedupFirstAux, hx, List.takeWhile_cons]
      · have hxfb : (x != f) = true := by simpa using hxf
        have hfx : f ∉ x :: seen := by
          intro hmem
          rcases List.mem_cons.mp hmem with h | h
          · exact hxf h.symm
          · exact hf h
        simp only [dedupFirstAux, hx, if_false, List.takeWhile_cons, hxfb]
        simp only [List.takeWhile_cons, hxfb] at *
        rw [takeWhile_dedupFirstAux f xs (x :: seen) hfx]
        simp [dedupFirstAux, hx]

/-- C8: a file reachable through several request entries appears exactly
once in the resolved sequence, at the position of its first encounter in
the input-order traversal: it is a member, its count is one, and the
segment of the resolved sequence before it is exactly the deduplicated
traversal segment before its first encounter. -/
theorem resolver_dedup_keeps_first (fsys : FileSystem) (paths : List String)
    (f : String) (h : f ∈ rawResolve fsys paths) :
    f ∈ resolveAll fsys paths
    ∧ (resolveAll fsys paths).count f = 1
    ∧ (resolveAll fsys paths).takeWhile (fun x => x != f)
        = dedupFirst ((rawResolve fsys paths).takeWhile (fun x => x != f)) := by
  have hmem : f ∈ resolveAll fsys paths := by
    rw [resolveAll, dedupFirst]
    exact (mem_dedupFirstAux f (rawResolve fsys paths) []).mpr ⟨h, by simp⟩
  refine ⟨hmem, ?_, ?_⟩
  · have hnd : (resolveAll fsys paths).Nodup := by
      rw [resolveAll, dedupFirst]
      exact nodup_dedupFirstAux (rawResolve fsys paths) []
    exact List.count_eq_one_of_mem hnd hmem
  · rw [resolveAll, dedupFirst, dedupFirst]
    exact takeWhile_dedupFirstAux f (rawResolve fsys paths) [] (by simp)

/-- Witness for C8: the file d/a is listed explicitly and also reached
through its listed parent directory d. -/
theorem resolver_dedup_keeps_first_witness :
    "d/a" ∈ rawResolve w8FileSystem ["d/a", "d"]
    ∧ ("d/a" ∈ resolveAll w8FileSystem ["d/a", "d"]
      ∧ (resolveAll w8FileSystem ["d/a", "d"]).count "d/a" = 1
      ∧ (resolveAll w8FileSystem ["d/a", "d"]).takeWhile (fun x => x != "d/a")
          = dedupFirst ((rawResolve w8FileSystem ["d/a", "d"]).takeWhile
              (fun x => x != "d/a"))) :=
  ⟨by decide, resolver_dedup_keeps_first w8FileSystem ["d/a", "d"] "d/a" (by decide)⟩

end Tgc
